import Mathlib

/-
Verification of the Ivy-to-mypyvy translator (`ivy/ivy_mypyvy.py`).

The development shallowly embeds the translator's data model and operations:
  * Ivy sorts and symbols, and the classification `sort_type`;
  * the name mangler `to_pyv_name`;
  * the logic-formula AST (`logic.py` constructors, per the spec's data model),
    the solver-formula AST (the z3 view used by `smt_to_ivy`), and the mypyvy
    expression AST (`mypyvy_syntax`, as used by the translator);
  * `smt_to_ivy`, `translate_logic_fmla`, `pyv_globals_under_new`,
    `pyv_unchanged_symbol`, `pyv_havoc_symbol`, `translate_symbol_decl`,
    `add_sort`, the Skolem-definition detector of `simplify_via_smt`
    (called `is_skolem_macro` in the source), and the final equivalence
    check of `simplify_via_smt`.
Parts of the repository that the translator calls but that live in other
modules (`ivy_solver.formula_to_z3`, `ivy_transrel.new/is_new/new_of`,
`mypyvy_syntax` declarations, the z3 oracle) are modelled from the spec;
each such definition says so in its doc comment.
-/

/-! ## Ivy sorts and symbols -/

/-- Modelled from the spec (§3 data model): an Ivy sort is uninterpreted,
enumerated, boolean, or a function sort with a domain list and a range. -/
inductive IvySort where
  | bool : IvySort
  | uninterpreted (name : String) : IvySort
  | enumerated (name : String) (values : List String) : IvySort
  | fn (dom : List IvySort) (rng : IvySort) : IvySort

mutual

/-- Structural equality test for sorts (needed because the nested
`List IvySort` blocks the derived instance). -/
def IvySort.beq : IvySort → IvySort → Bool
  | .bool, .bool => true
  | .uninterpreted a, .uninterpreted b => a == b
  | .enumerated a va, .enumerated b vb => a == b && va == vb
  | .fn d1 r1, .fn d2 r2 => IvySort.beqList d1 d2 && IvySort.beq r1 r2
  | _, _ => false

/-- Pointwise `IvySort.beq` on lists. -/
def IvySort.beqList : List IvySort → List IvySort → Bool
  | [], [] => true
  | a :: as, b :: bs => IvySort.beq a b && IvySort.beqList as bs
  | _, _ => false

end

/-- Modelled from the spec: `ivy_logic.is_function_sort`. -/
def is_function_sort : IvySort → Bool
  | .fn _ _ => true
  | _ => false

/-- Modelled from the spec: `ivy_logic.is_boolean_sort`. -/
def is_boolean_sort : IvySort → Bool
  | .bool => true
  | _ => false

/-- Modelled from the spec: `ivy_logic.is_first_order_sort` (uninterpreted). -/
def is_first_order_sort : IvySort → Bool
  | .uninterpreted _ => true
  | _ => false

/-- Modelled from the spec: `ivy_logic.is_enumerated_sort`. -/
def is_enumerated_sort : IvySort → Bool
  | .enumerated _ _ => true
  | _ => false

/-- Domain of a sort (`sort.dom`): the argument sorts of a function sort,
empty for the others. -/
def sortDom : IvySort → List IvySort
  | .fn dom _ => dom
  | _ => []

/-- Range of a sort (`sort.rng`): the result sort of a function sort; a
non-function sort is its own range (a zero-arity symbol of that sort). -/
def sortRng : IvySort → IvySort
  | .fn _ rng => rng
  | s => s

/-- Printed name of a sort, as z3 reports it via `var_sort(i).name()`. -/
def ivySortName : IvySort → String
  | .bool => "Bool"
  | .uninterpreted n => n
  | .enumerated n _ => n
  | .fn _ _ => "Fun"

/-- An Ivy symbol: a name together with its sort (`il.Symbol`). -/
structure IvySymbol where
  name : String
  sort : IvySort

/-- Structural equality test for symbols. -/
def IvySymbol.beq (a b : IvySymbol) : Bool :=
  a.name == b.name && IvySort.beq a.sort b.sort

/-- Embeds `Translation.sort_type` (ivy_mypyvy.py lines 37-42): `relation`
for a function sort into bool, `function` for any other function sort, and
`individual` as the fallback. -/
def sort_type (ivy_sort : IvySort) : String :=
  if is_function_sort ivy_sort && is_boolean_sort (sortRng ivy_sort) then "relation"
  else if is_function_sort ivy_sort then "function"
  else "individual"

/-! ## Name mangling -/

/-- Replacement for `.` (`DOT_REPLACEMENT`). -/
def DOT_REPLACEMENT : List Char := ['_']

/-- Replacement for `[` and `]` (`BRACE_REPLACEMENT`). -/
def BRACE_REPLACEMENT : List Char := ['_', 'B', '_']

/-- Replacement for `:` (`COLON_REPLACEMENT`). -/
def COLON_REPLACEMENT : List Char := ['_', 'c', '_']

/-- Python `str.replace` for a single-character pattern: every occurrence of
`t` is replaced by `r`. -/
def replace1 (t : Char) (r : List Char) : List Char → List Char
  | [] => []
  | c :: cs => if c = t then r ++ replace1 t r cs else c :: replace1 t r cs

/-- Embeds `Translation.to_pyv_name` (lines 59-66) on the character list:
replace `.`, then `[`, then `]`, then `:`, in the source's order. -/
def pyvChars (s : List Char) : List Char :=
  replace1 ':' COLON_REPLACEMENT
    (replace1 ']' BRACE_REPLACEMENT
      (replace1 '[' BRACE_REPLACEMENT
        (replace1 '.' DOT_REPLACEMENT s)))

/-- Embeds `Translation.to_pyv_name` on strings. -/
def to_pyv_name (s : String) : String :=
  String.mk (pyvChars s.data)

/-! ## Logic formulas -/

/-- Modelled from the spec (§3): the recursive formula tree of `logic.py`
with constructors ForAll, Exists, IfThenElse, And, Or, Eq, Implies, Iff,
Not, Apply(symbol, args), Const(symbol), Var(binder).  `And []` is the
internal representation of `true` and `Or []` of `false` (lines 30-31 of
the source). -/
inductive Fmla where
  | forallF (vs : List IvySymbol) (body : Fmla)
  | existsF (vs : List IvySymbol) (body : Fmla)
  | iteF (cond t_then t_else : Fmla)
  | andF (terms : List Fmla)
  | orF (terms : List Fmla)
  | eqF (t1 t2 : Fmla)
  | impliesF (t1 t2 : Fmla)
  | iffF (t1 t2 : Fmla)
  | notF (body : Fmla)
  | appF (func : IvySymbol) (terms : List Fmla)
  | constF (sym : IvySymbol)
  | varF (v : IvySymbol)

/-- Binder data stored at a z3 quantifier node: `var_name(i)` (which embeds
the sort after a colon, per lines 77-80 of the source) and
`var_sort(i).name()`. -/
structure SmtBinder where
  name : String
  sortName : String
deriving DecidableEq

/-- Modelled from the spec (§4.3.2 and the z3 oracle interface): the solver
formula AST as `smt_to_ivy` inspects it — quantifiers carry binder data and
a de Bruijn body, bound variables are positional indices, `tt`/`ff` are the
boolean constants, and `appS` with an empty argument list is what
`z3.is_const` recognizes. -/
inductive Smt where
  | forallQ (binders : List SmtBinder) (body : Smt)
  | existsQ (binders : List SmtBinder) (body : Smt)
  | notS (arg : Smt)
  | andS (args : List Smt)
  | orS (args : List Smt)
  | eqS (a b : Smt)
  | impliesS (a b : Smt)
  | iffS (a b : Smt)
  | iteS (c a b : Smt)
  | tt
  | ff
  | appS (name : String) (args : List Smt)
  | varS (idx : Nat)

/-- Embeds `Translation.smt_binder_name_to_ivy_name` (lines 77-80): Python
`name.split(':')[0]`, the longest colon-free leading segment. -/
def smt_binder_name_to_ivy_name (name : String) : String :=
  String.mk (name.data.takeWhile (fun c => c != ':'))

/-- Embeds `Translation.smt_binders_to_ivy` (lines 82-89): each binder name
is stripped of its sort suffix and its sort name is resolved through the
caller-supplied sort table. -/
def smt_binders_to_ivy (sorts : String → Option IvySort) (bs : List SmtBinder) :
    Option (List IvySymbol) :=
  bs.mapM fun b =>
    (sorts b.sortName).map fun s =>
      ({ name := smt_binder_name_to_ivy_name b.name, sort := s } : IvySymbol)

mutual

/-- Embeds `Translation.smt_to_ivy` (lines 149-213): top-down walk of the
solver AST with a binder stack (innermost first); quantifiers push their
reversed binders, constants and applications resolve their sort through the
symbol table, de Bruijn variables index the stack.  `none` models the
source's uncaught exceptions (missing table entries, out-of-range
indices). -/
def smt_to_ivy (sorts : String → Option IvySort) (syms : String → Option IvySymbol) :
    Smt → List IvySymbol → Option Fmla
  | .forallQ bs body, binders =>
    (smt_binders_to_ivy sorts bs).bind fun newBinders =>
      (smt_to_ivy sorts syms body (newBinders.reverse ++ binders)).map fun b =>
        .forallF newBinders b
  | .existsQ bs body, binders =>
    (smt_binders_to_ivy sorts bs).bind fun newBinders =>
      (smt_to_ivy sorts syms body (newBinders.reverse ++ binders)).map fun b =>
        .existsF newBinders b
  | .notS a, binders => (smt_to_ivy sorts syms a binders).map .notF
  | .andS args, binders => (smt_to_ivy_list sorts syms args binders).map .andF
  | .orS args, binders => (smt_to_ivy_list sorts syms args binders).map .orF
  | .eqS a b, binders =>
    (smt_to_ivy sorts syms a binders).bind fun x =>
      (smt_to_ivy sorts syms b binders).map fun y => .eqF x y
  | .impliesS a b, binders =>
    (smt_to_ivy sorts syms a binders).bind fun x =>
      (smt_to_ivy sorts syms b binders).map fun y => .impliesF x y
  | .iffS a b, binders =>
    (smt_to_ivy sorts syms a binders).bind fun x =>
      (smt_to_ivy sorts syms b binders).map fun y => .iffF x y
  | .iteS c a b, binders =>
    (smt_to_ivy sorts syms c binders).bind fun x =>
      (smt_to_ivy sorts syms a binders).bind fun y =>
        (smt_to_ivy sorts syms b binders).map fun z => .iteF x y z
  | .tt, _ => some (.andF [])
  | .ff, _ => some (.orF [])
  | .appS name [], _ =>
    (syms name).map fun sy => .constF { name := name, sort := sy.sort }
  | .appS name (a :: args), binders =>
    (syms name).bind fun sy =>
      (smt_to_ivy_list sorts syms (a :: args) binders).map fun ivyArgs =>
        .appF { name := name, sort := sy.sort } ivyArgs
  | .varS i, binders => binders[i]?.map .varF

/-- Pointwise `smt_to_ivy` over argument lists (the source's list
comprehensions). -/
def smt_to_ivy_list (sorts : String → Option IvySort) (syms : String → Option IvySymbol) :
    List Smt → List IvySymbol → Option (List Fmla)
  | [], _ => some []
  | t :: ts, binders =>
    (smt_to_ivy sorts syms t binders).bind fun x =>
      (smt_to_ivy_list sorts syms ts binders).map fun xs => x :: xs

end

/-- Modelled from the spec (§4.2/§4.3.1): the binder data the formula
compiler hands to the solver — the variable name with its sort name
appended after a colon (the suffix `smt_binder_name_to_ivy_name` strips),
plus the sort name. -/
def z3Binder (v : IvySymbol) : SmtBinder :=
  { name := v.name ++ ":" ++ ivySortName v.sort, sortName := ivySortName v.sort }

/-- Modelled from the spec (§4.3.2, de Bruijn bookkeeping): position of the
first exact occurrence of a symbol in the binder environment (innermost
binder first). -/
def deBruijnIndex (env : List IvySymbol) (v : IvySymbol) : Option Nat :=
  match env with
  | [] => none
  | w :: ws => if IvySymbol.beq w v then some 0 else (deBruijnIndex ws v).map (· + 1)

mutual

/-- Modelled from the spec (§4.3.1): `ivy_solver.formula_to_z3`, the
logic-to-solver compiler (an out-of-scope collaborator used as a black
box).  It maps each constructor to its solver counterpart, converts binder
lists to quantifier data via `z3Binder`, resolves variables to de Bruijn
indices against the environment of open binders (innermost first, each
quantifier pushing its reversed binder list, matching z3's convention), and
compiles the empty conjunction/disjunction to the boolean constants.
`none` marks formulas outside the compiler's domain (unbound variables,
zero-argument applications, which z3 would conflate with constants). -/
def formula_to_z3 (env : List IvySymbol) : Fmla → Option Smt
  | .forallF vs body =>
    (formula_to_z3 (vs.reverse ++ env) body).map fun b => .forallQ (vs.map z3Binder) b
  | .existsF vs body =>
    (formula_to_z3 (vs.reverse ++ env) body).map fun b => .existsQ (vs.map z3Binder) b
  | .iteF c a b =>
    (formula_to_z3 env c).bind fun x =>
      (formula_to_z3 env a).bind fun y =>
        (formula_to_z3 env b).map fun z => .iteS x y z
  | .andF ts =>
    if ts.isEmpty then some .tt else (formula_to_z3_list env ts).map .andS
  | .orF ts =>
    if ts.isEmpty then some .ff else (formula_to_z3_list env ts).map .orS
  | .eqF a b =>
    (formula_to_z3 env a).bind fun x =>
      (formula_to_z3 env b).map fun y => .eqS x y
  | .impliesF a b =>
    (formula_to_z3 env a).bind fun x =>
      (formula_to_z3 env b).map fun y => .impliesS x y
  | .iffF a b =>
    (formula_to_z3 env a).bind fun x =>
      (formula_to_z3 env b).map fun y => .iffS x y
  | .notF a => (formula_to_z3 env a).map .notS
  | .appF f args =>
    if args.isEmpty then none
    else (formula_to_z3_list env args).map (.appS f.name)
  | .constF sym => some (.appS sym.name [])
  | .varF v => (deBruijnIndex env v).map .varS

/-- Pointwise `formula_to_z3` over argument lists. -/
def formula_to_z3_list (env : List IvySymbol) : List Fmla → Option (List Smt)
  | [] => some []
  | t :: ts =>
    (formula_to_z3 env t).bind fun x =>
      (formula_to_z3_list env ts).map fun xs => x :: xs

end

/-- Consistency of one binder with the sort table: its name is colon-free
(so the solver's sort suffix can be stripped back off) and the table maps
its sort's name back to the sort. -/
def binder_ok (sorts : String → Option IvySort) (v : IvySymbol) : Bool :=
  v.name.data.all (fun c => c != ':') &&
    (match sorts (ivySortName v.sort) with
     | some s => IvySort.beq s v.sort
     | none => false)

/-- Consistency of a binder list with the sort table. -/
def binders_ok (sorts : String → Option IvySort) (vs : List IvySymbol) : Bool :=
  vs.all (binder_ok sorts)

/-- Consistency of one symbol occurrence with the symbol table: the table
maps its name to a symbol of the same sort (in the translator the table is
built from the formula's own symbols, so this holds by construction). -/
def sym_ok (syms : String → Option IvySymbol) (sym : IvySymbol) : Bool :=
  match syms sym.name with
  | some sy => IvySort.beq sy.sort sym.sort
  | none => false

mutual

/-- Consistency of a formula with the sort and symbol tables handed to
`smt_to_ivy`: binder names are colon-free and round-trip through the sort
table, constants and applications round-trip through the symbol table, and
applications have at least one argument (z3 represents a zero-argument
application as a constant). -/
def fmla_ok (sorts : String → Option IvySort) (syms : String → Option IvySymbol) :
    Fmla → Bool
  | .forallF vs body => binders_ok sorts vs && fmla_ok sorts syms body
  | .existsF vs body => binders_ok sorts vs && fmla_ok sorts syms body
  | .iteF c a b => fmla_ok sorts syms c && fmla_ok sorts syms a && fmla_ok sorts syms b
  | .andF ts => fmla_ok_list sorts syms ts
  | .orF ts => fmla_ok_list sorts syms ts
  | .eqF a b => fmla_ok sorts syms a && fmla_ok sorts syms b
  | .impliesF a b => fmla_ok sorts syms a && fmla_ok sorts syms b
  | .iffF a b => fmla_ok sorts syms a && fmla_ok sorts syms b
  | .notF a => fmla_ok sorts syms a
  | .appF f args => !args.isEmpty && sym_ok syms f && fmla_ok_list sorts syms args
  | .constF sym => sym_ok syms sym
  | .varF _ => true

/-- Pointwise `fmla_ok` over lists. -/
def fmla_ok_list (sorts : String → Option IvySort) (syms : String → Option IvySymbol) :
    List Fmla → Bool
  | [] => true
  | t :: ts => fmla_ok sorts syms t && fmla_ok_list sorts syms ts

end

/-! ## Post-state tagging -/

/-- Modelled from the spec (§3 two-state formulas) and the source's own
comment at lines 455-456 ("see which symbols start with new_"):
`ivy_transrel.new` tags a symbol as post-state by prefixing its name. -/
def itr_new (sym : IvySymbol) : IvySymbol :=
  { name := "new_" ++ sym.name, sort := sym.sort }

/-- Modelled from the spec: `ivy_transrel.is_new`, the post-state tag
test. -/
def itr_is_new (sym : IvySymbol) : Bool :=
  "new_".data.isPrefixOf sym.name.data

/-- Untagging of a post-state name (drop the four-character tag). -/
def new_of_name (name : String) : String :=
  String.mk (name.data.drop 4)

/-- Modelled from the spec: `ivy_transrel.new_of`, removing the post-state
tag. -/
def itr_new_of (sym : IvySymbol) : IvySymbol :=
  { name := new_of_name sym.name, sort := sym.sort }

/-! ## The modifies sanity check of `translate_action` -/

/-- Embeds `actually_modified`/`simpl_modified` of `translate_action`
(lines 457-462): the untagged names of the post-state-tagged symbols
occurring in the simplified logic formula. -/
def actually_modified_names (fmla_symbols : List IvySymbol) : List String :=
  ((fmla_symbols.filter itr_is_new).map itr_new_of).map IvySymbol.name

/-- Python set equality on name collections (order- and
duplicate-insensitive). -/
def setEqNames (a b : List String) : Bool :=
  a.all (fun x => b.contains x) && b.all (fun x => a.contains x)

/-- Embeds the modifies sanity check of `translate_action` (lines 461-463):
`orig_modified == simpl_modified`, compared as sets of raw (untranslated)
names; the translation continues only when this passes. -/
def modifies_check (orig_modified : List String) (fmla_symbols : List IvySymbol) : Bool :=
  setEqNames orig_modified (actually_modified_names fmla_symbols)

/-! ## The mypyvy expression and declaration ASTs -/

/-- Modelled from the spec (§4.1): the target sort shapes `to_pyv_sort`
produces — named opaque sort, boolean primitive, a relation's domain tuple,
or a function's (domain, range) pair. -/
inductive PyvSort where
  | uninterpretedSort (name : String)
  | boolSort
  | relArity (dom : List PyvSort)
  | fnArity (dom : List PyvSort) (rng : PyvSort)

/-- Modelled from the spec: `mypyvy_syntax.SortedVar` (the source always
passes `None` for its third field). -/
structure SortedVar where
  name : String
  sort : PyvSort

/-- Modelled from the spec (and the constructors/field accesses the
translator uses): mypyvy expressions.  `unary` covers `NEW` and `NOT`,
`binary` covers `EQUAL`/`IMPLIES`/`IFF`, `nary` covers `AND`/`OR`/
`DISTINCT`, `quantifier` covers `FORALL`/`EXISTS`. -/
inductive PyvExpr where
  | boolE (b : Bool)
  | intE (n : Int)
  | unary (op : String) (arg : PyvExpr)
  | binary (op : String) (arg1 arg2 : PyvExpr)
  | nary (op : String) (args : List PyvExpr)
  | app (callee : String) (args : List PyvExpr)
  | quantifier (quant : String) (binders : List SortedVar) (body : PyvExpr)
  | idE (name : String)
  | ifThenElse (branch thenE elsE : PyvExpr)
  | letE (v : SortedVar) (val body : PyvExpr)

/-- Modelled from the spec: the mypyvy declarations the translator emits
(`axmDecl` stands for `AxiomDecl`). -/
inductive PyvDecl where
  | sortDecl (name : String)
  | constantDecl (name : String) (sort : PyvSort) (mutable : Bool)
  | relationDecl (name : String) (arity : PyvSort) (mutable : Bool)
  | functionDecl (name : String) (dom : List PyvSort) (rng : PyvSort) (mutable : Bool)
  | axmDecl (name : Option String) (fmla : PyvExpr)

mutual

/-- Embeds `Translation.to_pyv_sort` (lines 44-57): uninterpreted and
enumerated sorts become named opaque sorts, bool the boolean primitive, a
function sort into bool the tuple of translated domain sorts, and any other
function sort the (domain, range) pair. -/
def to_pyv_sort : IvySort → PyvSort
  | .uninterpreted n => .uninterpretedSort n
  | .enumerated n _ => .uninterpretedSort n
  | .bool => .boolSort
  | .fn dom rng =>
    if is_boolean_sort rng then .relArity (to_pyv_sort_list dom)
    else .fnArity (to_pyv_sort_list dom) (to_pyv_sort rng)

/-- Pointwise `to_pyv_sort` (the source's tuple comprehension). -/
def to_pyv_sort_list : List IvySort → List PyvSort
  | [] => []
  | s :: ss => to_pyv_sort s :: to_pyv_sort_list ss

end

/-- Embeds `Translation.translate_binders` (lines 68-75). -/
def translate_binders (binders : List IvySymbol) : List SortedVar :=
  binders.map fun b => { name := to_pyv_name b.name, sort := to_pyv_sort b.sort }

mutual

/-- Embeds `Translation.translate_logic_fmla` (lines 216-270): structural
translation of a logic formula to a mypyvy expression; in two-state mode a
post-state-tagged application or constant is untagged, renamed and wrapped
in the `NEW` marker.  The empty conjunction/disjunction becomes the boolean
constant. -/
def translate_logic_fmla (is_twostate : Bool) : Fmla → PyvExpr
  | .forallF vs body =>
    .quantifier "FORALL" (translate_binders vs) (translate_logic_fmla is_twostate body)
  | .existsF vs body =>
    .quantifier "EXISTS" (translate_binders vs) (translate_logic_fmla is_twostate body)
  | .iteF c a b =>
    .ifThenElse (translate_logic_fmla is_twostate c) (translate_logic_fmla is_twostate a)
      (translate_logic_fmla is_twostate b)
  | .andF ts =>
    if ts.isEmpty then .boolE true
    else .nary "AND" (translate_logic_fmla_list is_twostate ts)
  | .orF ts =>
    if ts.isEmpty then .boolE false
    else .nary "OR" (translate_logic_fmla_list is_twostate ts)
  | .eqF a b =>
    .binary "EQUAL" (translate_logic_fmla is_twostate a) (translate_logic_fmla is_twostate b)
  | .impliesF a b =>
    .binary "IMPLIES" (translate_logic_fmla is_twostate a) (translate_logic_fmla is_twostate b)
  | .iffF a b =>
    .binary "IFF" (translate_logic_fmla is_twostate a) (translate_logic_fmla is_twostate b)
  | .notF a => .unary "NOT" (translate_logic_fmla is_twostate a)
  | .appF f args =>
    if is_twostate && itr_is_new f then
      .unary "NEW"
        (.app (to_pyv_name (itr_new_of f).name) (translate_logic_fmla_list is_twostate args))
    else .app (to_pyv_name f.name) (translate_logic_fmla_list is_twostate args)
  | .constF sym =>
    if is_twostate && itr_is_new sym then
      .unary "NEW" (.idE (to_pyv_name (itr_new_of sym).name))
    else .idE (to_pyv_name sym.name)
  | .varF v => .idE (to_pyv_name v.name)

/-- Pointwise `translate_logic_fmla` (the source's tuple comprehensions). -/
def translate_logic_fmla_list (is_twostate : Bool) : List Fmla → List PyvExpr
  | [] => []
  | t :: ts =>
    translate_logic_fmla is_twostate t :: translate_logic_fmla_list is_twostate ts

end

/-- The fresh universal argument variables `X0, X1, ...` built from a
domain (`lg.Var("X{}".format(i), sort.dom[i])`, lines 124 and 143). -/
def domVars (dom : List IvySort) : List IvySymbol :=
  dom.enum.map fun p => { name := "X" ++ toString p.1, sort := p.2 }

/-- Embeds `Translation.pyv_unchanged_symbol` (lines 130-147): the
two-state clause asserting a symbol keeps its pre-state value. -/
def pyv_unchanged_symbol (sym : IvySymbol) : PyvExpr :=
  let sort := sym.sort
  let old_sym := sym
  let nsym := itr_new sym
  let fmla : Fmla :=
    if (sortDom sort).length = 0 then
      .eqF (.constF nsym) (.constF old_sym)
    else
      let uvars := domVars (sortDom sort)
      .forallF uvars
        (.eqF (.appF nsym (uvars.map .varF)) (.appF old_sym (uvars.map .varF)))
  translate_logic_fmla true fmla

/-- Embeds `Translation.pyv_havoc_symbol` (lines 112-128): the two-state
clause asserting a symbol's post-state value is arbitrary in its range. -/
def pyv_havoc_symbol (sym : IvySymbol) : PyvExpr :=
  let sort := sym.sort
  let nsym := itr_new sym
  let vvar : IvySymbol := { name := "V", sort := sortRng sort }
  let fmla : Fmla :=
    if (sortDom sort).length = 0 then
      .existsF [vvar] (.eqF (.constF nsym) (.varF vvar))
    else
      let uvars := domVars (sortDom sort)
      .forallF uvars (.existsF [vvar] (.eqF (.appF nsym (uvars.map .varF)) (.varF vvar)))
  translate_logic_fmla true fmla

/-- Embeds `Translation.translate_symbol_decl` (lines 91-110): an
individual becomes a constant declaration, a relation a relation
declaration, a function a function declaration; `none` models the
unreachable unpacking failure of a non-pair sort in the function branch. -/
def translate_symbol_decl (sym : IvySymbol) (is_mutable : Bool) : Option PyvDecl :=
  let kind := sort_type sym.sort
  let name := to_pyv_name sym.name
  if kind = "individual" then
    some (.constantDecl name (to_pyv_sort sym.sort) is_mutable)
  else if kind = "relation" then
    some (.relationDecl name (to_pyv_sort sym.sort) is_mutable)
  else
    match to_pyv_sort sym.sort with
    | .fnArity dom rng => some (.functionDecl name dom rng is_mutable)
    | _ => none

/-! ## Modifies inference over the target AST -/

mutual

/-- Embeds `Translation.pyv_globals_under_new` (lines 297-332): collects
the names that occur under a `NEW` marker — identifiers only when they
belong to the mutable-symbol set, application callees unconditionally (the
source's `res.add(e.callee)` has no membership test).  `none` models the
`set.union()` TypeError on an empty argument list, which the translator
never builds. -/
def pyv_globals_under_new (globals : List String) :
    PyvExpr → Bool → Option (List String)
  | .boolE _, _ => some []
  | .intE _, _ => some []
  | .unary op arg, under_new =>
    if op = "NEW" then pyv_globals_under_new globals arg true
    else pyv_globals_under_new globals arg under_new
  | .binary _ a b, under_new =>
    (pyv_globals_under_new globals a under_new).bind fun x =>
      (pyv_globals_under_new globals b under_new).map fun y => x ++ y
  | .nary _ args, under_new =>
    if args.isEmpty then none
    else pyv_globals_under_new_list globals args under_new
  | .app callee args, under_new =>
    if args.isEmpty then none
    else
      (pyv_globals_under_new_list globals args under_new).map fun res =>
        if under_new then callee :: res else res
  | .quantifier _ _ body, under_new => pyv_globals_under_new globals body under_new
  | .idE n, under_new =>
    if under_new && globals.contains n then some [n] else some []
  | .ifThenElse c a b, under_new =>
    (pyv_globals_under_new globals c under_new).bind fun x =>
      (pyv_globals_under_new globals a under_new).bind fun y =>
        (pyv_globals_under_new globals b under_new).map fun z => x ++ y ++ z
  | .letE _ val body, under_new =>
    (pyv_globals_under_new globals val under_new).bind fun x =>
      (pyv_globals_under_new globals body under_new).map fun y => x ++ y

/-- Union of `pyv_globals_under_new` over an argument list (the source's
`set.union(*[...])` on a non-empty list). -/
def pyv_globals_under_new_list (globals : List String) :
    List PyvExpr → Bool → Option (List String)
  | [], _ => some []
  | e :: es, under_new =>
    (pyv_globals_under_new globals e under_new).bind fun x =>
      (pyv_globals_under_new_list globals es under_new).map fun y => x ++ y

end

mutual

/-- Plain-language reading of the amended C6: `x` occurs as an identifier
underneath a next-state marker (the flag records whether a `NEW` marker is
already above). -/
def occurs_id_under_new (x : String) : PyvExpr → Bool → Bool
  | .boolE _, _ => false
  | .intE _, _ => false
  | .unary op a, under => occurs_id_under_new x a (if op = "NEW" then true else under)
  | .binary _ a b, under => occurs_id_under_new x a under || occurs_id_under_new x b under
  | .nary _ args, under => occurs_id_under_new_list x args under
  | .app _ args, under => occurs_id_under_new_list x args under
  | .quantifier _ _ b, under => occurs_id_under_new x b under
  | .idE n, under => under && n == x
  | .ifThenElse c a b, under =>
    occurs_id_under_new x c under || occurs_id_under_new x a under ||
      occurs_id_under_new x b under
  | .letE _ val body, under =>
    occurs_id_under_new x val under || occurs_id_under_new x body under

/-- Pointwise disjunction of `occurs_id_under_new` over a list. -/
def occurs_id_under_new_list (x : String) : List PyvExpr → Bool → Bool
  | [], _ => false
  | e :: es, under => occurs_id_under_new x e under || occurs_id_under_new_list x es under

end

mutual

/-- Plain-language reading of the amended C6: `x` occurs as an application
callee underneath a next-state marker. -/
def occurs_callee_under_new (x : String) : PyvExpr → Bool → Bool
  | .boolE _, _ => false
  | .intE _, _ => false
  | .unary op a, under => occurs_callee_under_new x a (if op = "NEW" then true else under)
  | .binary _ a b, under =>
    occurs_callee_under_new x a under || occurs_callee_under_new x b under
  | .nary _ args, under => occurs_callee_under_new_list x args under
  | .app c args, under =>
    (under && c == x) || occurs_callee_under_new_list x args under
  | .quantifier _ _ b, under => occurs_callee_under_new x b under
  | .idE _, _ => false
  | .ifThenElse c a b, under =>
    occurs_callee_under_new x c under || occurs_callee_under_new x a under ||
      occurs_callee_under_new x b under
  | .letE _ val body, under =>
    occurs_callee_under_new x val under || occurs_callee_under_new x body under

/-- Pointwise disjunction of `occurs_callee_under_new` over a list. -/
def occurs_callee_under_new_list (x : String) : List PyvExpr → Bool → Bool
  | [], _ => false
  | e :: es, under =>
    occurs_callee_under_new x e under || occurs_callee_under_new_list x es under

end

/-! ## Unchanged-clause synthesis -/

/-- Embeds lines 469-473 of `translate_action`: when the
not-actually-modified set is non-empty, the unchanged clauses are conjoined
onto the action body (`pyv.And(pyv_fmla, pyv.And(*noop_clauses))`). -/
def conjoin_unchanged (pyv_fmla : PyvExpr)
    (ivy_not_actually_modified : List IvySymbol) : PyvExpr :=
  if 0 < ivy_not_actually_modified.length then
    .nary "AND"
      [pyv_fmla, .nary "AND" (ivy_not_actually_modified.map pyv_unchanged_symbol)]
  else pyv_fmla

/-- Shape of an unchanged clause as the claim states it: for a zero-arity
symbol `next(x) = x`; for an n-ary symbol
`forall fresh args. next(sym(args)) = sym(args)` — over the translated name
and the translator's fresh argument variables. -/
def unchanged_expected (sym : IvySymbol) : PyvExpr :=
  let n := to_pyv_name sym.name
  match sortDom sym.sort with
  | [] => .binary "EQUAL" (.unary "NEW" (.idE n)) (.idE n)
  | dom =>
    let args : List PyvExpr := (domVars dom).map fun v => .idE (to_pyv_name v.name)
    .quantifier "FORALL" (translate_binders (domVars dom))
      (.binary "EQUAL" (.unary "NEW" (.app n args)) (.app n args))

/-! ## Enumerated sorts in the program assembler -/

/-- The three declaration lists of `MypyvyProgram` that `add_sort`
touches. -/
structure MypyvyProgState where
  sorts : List PyvDecl
  constants : List PyvDecl
  axms : List PyvDecl

/-- Embeds `MypyvyProgram.add_sort` (lines 675-704): a first-order sort
adds one sort declaration; an enumerated sort adds one sort declaration,
one immutable constant per value, and a single DISTINCT axiom when there
are at least two values; bool adds nothing; anything else raises. -/
def add_sort (st : MypyvyProgState) : IvySort → Option MypyvyProgState
  | .uninterpreted name =>
    some { st with sorts := st.sorts ++ [.sortDecl name] }
  | .enumerated name values =>
    let decl := PyvDecl.sortDecl name
    let pyv_sort := to_pyv_sort (.enumerated name values)
    let st1 := { st with sorts := st.sorts ++ [decl] }
    let st2 := { st1 with
      constants := st1.constants ++
        values.map fun v => PyvDecl.constantDecl v pyv_sort false }
    let individuals := values.map PyvExpr.idE
    if individuals.length ≥ 2 then
      some { st2 with
        axms := st2.axms ++
          [.axmDecl (some (name ++ "_distinct")) (.nary "DISTINCT" individuals)] }
    else some st2
  | .bool => some st
  | .fn _ _ => none

/-! ## Intermediate declarations and the havoc action -/

/-- Lexicographic comparison of character lists by code point (the order
Python `sorted` uses on strings). -/
def charListLe : List Char → List Char → Bool
  | [], _ => true
  | _ :: _, [] => false
  | a :: as, b :: bs =>
    if a.toNat < b.toNat then true
    else if b.toNat < a.toNat then false
    else charListLe as bs

/-- Lexicographic string comparison. -/
def strLe (a b : String) : Bool := charListLe a.data b.data

/-- Insertion of a name into a sorted name list (helper for the model of
Python `sorted`). -/
def insertSorted (s : String) : List String → List String
  | [] => [s]
  | x :: xs => if strLe s x then s :: x :: xs else x :: insertSorted s xs

/-- Modelled from the spec: Python `sorted` on names (insertion sort by the
lexicographic order). -/
def sortNames : List String → List String
  | [] => []
  | x :: xs => insertSorted x (sortNames xs)

/-- Embeds the intermediate-declaration loop of
`add_intermediate_rels_fn_and_havoc_action` (lines 799-801): one
declaration per second-order existential, emitted in the *set iteration
order* `iter` — no sorting. -/
def add_intermediate_decls (iter : List IvySymbol) : List (Option PyvDecl) :=
  iter.map fun se_ex => translate_symbol_decl se_ex true

/-- Embeds line 805: the havoc action's modifies list, which *is* sorted by
translated name. -/
def havoc_modified (iter : List IvySymbol) : List String :=
  sortNames (iter.map fun x => to_pyv_name x.name)

/-- Embeds line 807: the havoc clauses, generated in the *set iteration
order* `iter` — no sorting. -/
def havoc_clauses (iter : List IvySymbol) : List PyvExpr :=
  iter.map pyv_havoc_symbol

/-- Name of a declaration (discriminator used to compare emitted
declaration lists). -/
def pyv_decl_name : PyvDecl → String
  | .sortDecl n => n
  | .constantDecl n _ _ => n
  | .relationDecl n _ _ => n
  | .functionDecl n _ _ _ => n
  | .axmDecl n _ => n.getD ""

mutual

/-- All identifier and callee names of a mypyvy expression, in
left-to-right order (discriminator used to compare emitted clauses). -/
def pyv_expr_names : PyvExpr → List String
  | .boolE _ => []
  | .intE _ => []
  | .unary _ a => pyv_expr_names a
  | .binary _ a b => pyv_expr_names a ++ pyv_expr_names b
  | .nary _ args => pyv_expr_names_list args
  | .app c args => c :: pyv_expr_names_list args
  | .quantifier _ _ b => pyv_expr_names b
  | .idE n => [n]
  | .ifThenElse c a b => pyv_expr_names c ++ pyv_expr_names a ++ pyv_expr_names b
  | .letE _ val body => pyv_expr_names val ++ pyv_expr_names body

/-- Concatenation of `pyv_expr_names` over a list. -/
def pyv_expr_names_list : List PyvExpr → List String
  | [] => []
  | e :: es => pyv_expr_names e ++ pyv_expr_names_list es

end

/-! ## The Skolem-definition detector of `simplify_via_smt` -/

/-- The reserved temporary-relation name tag (line 33 of the source). -/
def IVY_TEMPORARY_INDICATOR : String := "__m_"

/-- Python `str.startswith`. -/
def py_startswith (s pre : String) : Bool :=
  pre.data.isPrefixOf s.data

/-- Children of a solver node, as z3's `children()` reports them for
applications (the detector only calls this on the body of a quantifier,
which a genuine definition makes an equivalence/equality). -/
def smtChildren : Smt → List Smt
  | .forallQ _ b => [b]
  | .existsQ _ b => [b]
  | .notS a => [a]
  | .andS ts => ts
  | .orS ts => ts
  | .eqS a b => [a, b]
  | .impliesS a b => [a, b]
  | .iffS a b => [a, b]
  | .iteS c a b => [c, a, b]
  | .tt => []
  | .ff => []
  | .appS _ args => args
  | .varS _ => []

/-- Argument count of a solver node (`num_args()`); `none` models the z3
failure on non-application nodes (quantifiers, bound variables). -/
def smtNumArgs : Smt → Option Nat
  | .forallQ _ _ => none
  | .existsQ _ _ => none
  | .varS _ => none
  | .notS _ => some 1
  | .andS ts => some ts.length
  | .orS ts => some ts.length
  | .eqS _ _ => some 2
  | .impliesS _ _ => some 2
  | .iffS _ _ => some 2
  | .iteS _ _ _ => some 3
  | .tt => some 0
  | .ff => some 0
  | .appS _ args => some args.length

/-- Head declaration name of a solver node (`decl().name()`); `none`
models the z3 failure on non-application nodes. -/
def smtDeclName : Smt → Option String
  | .appS n _ => some n
  | .tt => some "true"
  | .ff => some "false"
  | .andS _ => some "and"
  | .orS _ => some "or"
  | .notS _ => some "not"
  | .eqS _ _ => some "="
  | .impliesS _ _ => some "=>"
  | .iffS _ _ => some "iff"
  | .iteS _ _ _ => some "if"
  | .forallQ _ _ => none
  | .existsQ _ _ => none
  | .varS _ => none

/-- Arguments are exactly the quantified variables, in binder order: for
`n` binders the de Bruijn views are `var (n-1), ..., var 0`. -/
def isDescVarSeq : List Smt → Nat → Bool
  | [], 0 => true
  | .varS i :: rest, Nat.succ k => i == k && isDescVarSeq rest k
  | _, _ => false

/-- Head check of a solver-level definition: an application whose arguments
are exactly the quantified binders in order. -/
def defn_head_ok (n : Nat) : Smt → Bool
  | .appS _ args => isDescVarSeq args n
  | _ => false

/-- Modelled from the spec (§4.4 step 2 / the z3 `macro-finder` oracle that
`is_macro` invokes): the tactic recognizes a universally quantified
equivalence/equality one of whose sides applies a relation to exactly the
quantified binders (order-sensitively); it knows nothing about Ivy's
reserved name tag. -/
def z3_defn_finder : Smt → Bool
  | .forallQ bs body =>
    match body with
    | .iffS a b => defn_head_ok bs.length a || defn_head_ok bs.length b
    | .eqS a b => defn_head_ok bs.length a || defn_head_ok bs.length b
    | _ => false
  | _ => false

/-- Embeds `is_skolem_macro` of `simplify_via_smt` (lines 510-530),
parameterized by the `is_macro` oracle: after the oracle accepts, the loop
examines side 0 and then side 1 of the quantifier body, *returning at the
first side whose argument count equals the binder count* with just a
name-tag test of that side's head.  `none` models the Python crashes
(indexing/`num_args()`/`decl()` failures). -/
def is_skolem_defn (is_defn : Smt → Bool) (f : Smt) : Option Bool :=
  if !is_defn f then some false
  else
    match f with
    | .forallQ bs body =>
      let n := bs.length
      match (smtChildren body)[0]? with
      | none => none
      | some c0 =>
        match smtNumArgs c0 with
        | none => none
        | some k0 =>
          if k0 = n then
            (smtDeclName c0).map fun nm => py_startswith nm IVY_TEMPORARY_INDICATOR
          else
            match (smtChildren body)[1]? with
            | none => none
            | some c1 =>
              match smtNumArgs c1 with
              | none => none
              | some k1 =>
                if k1 = n then
                  (smtDeclName c1).map fun nm => py_startswith nm IVY_TEMPORARY_INDICATOR
                else some false
    | _ => some false

/-- Head check as the claim states it: an application of a
reserved-prefixed relation to exactly the quantified binders, in order. -/
def claim_defn_head (n : Nat) : Smt → Bool
  | .appS nm args => py_startswith nm IVY_TEMPORARY_INDICATOR && isDescVarSeq args n
  | _ => false

/-- The claim's characterization of an eliminable macro: a universally
quantified equivalence/equality whose left- or right-hand side applies a
reserved-prefixed relation to exactly the bound variables. -/
def claim_is_eliminable : Smt → Bool
  | .forallQ bs body =>
    match body with
    | .iffS a b => claim_defn_head bs.length a || claim_defn_head bs.length b
    | .eqS a b => claim_defn_head bs.length a || claim_defn_head bs.length b
    | _ => false
  | _ => false

/-- Name-tag test on a node's head declaration. -/
def head_is_tagged (s : Smt) : Bool :=
  match smtDeclName s with
  | some nm => py_startswith nm IVY_TEMPORARY_INDICATOR
  | none => false

/-- The amended characterization: the oracle accepts, and among the two
sides of the body taken in order (left first), the first side whose
argument count equals the binder count has a reserved-prefixed head. -/
def amended_is_eliminable : Smt → Bool
  | .forallQ bs body =>
    z3_defn_finder (.forallQ bs body) &&
      (match body with
       | .iffS a b =>
         if smtNumArgs a = some bs.length then head_is_tagged a
         else if smtNumArgs b = some bs.length then head_is_tagged b
         else false
       | .eqS a b =>
         if smtNumArgs a = some bs.length then head_is_tagged a
         else if smtNumArgs b = some bs.length then head_is_tagged b
         else false
       | _ => false)
  | _ => false

/-! ## Sample instances used by witnesses -/

/-- An uninterpreted sample sort. -/
def nodeSort : IvySort := .uninterpreted "node"

/-- Sample sort table: resolves exactly the sample sort's name. -/
def c2_sorts : String → Option IvySort :=
  fun n => if n = "node" then some nodeSort else none

/-- Sample relation symbol. -/
def c2_rSym : IvySymbol := { name := "r", sort := .fn [nodeSort] .bool }

/-- Sample post-state-tagged relation symbol. -/
def c2_newRSym : IvySymbol := { name := "new_r", sort := .fn [nodeSort] .bool }

/-- Sample symbol table for the two sample relations. -/
def c2_syms : String → Option IvySymbol :=
  fun n =>
    if n = "r" then some c2_rSym
    else if n = "new_r" then some c2_newRSym
    else none

/-- Sample bound variable. -/
def c2_X : IvySymbol := { name := "X", sort := nodeSort }

/-- Sample two-state action formula:
`forall X. new_r(X) <-> r(X)`. -/
def c2_sample : Fmla :=
  .forallF [c2_X]
    (.iffF (.appF c2_newRSym [.varF c2_X]) (.appF c2_rSym [.varF c2_X]))

/-- Sample externally-supplied modified-name set. -/
def c3_orig : List String := ["a.b"]

/-- Sample symbol list of a simplified formula: the post-state-tagged
`a.b` plus an untouched symbol. -/
def c3_fsyms : List IvySymbol :=
  [{ name := "new_a.b", sort := .bool }, { name := "c", sort := .bool }]

/-- A definition whose tagged head sits on the right-hand side while the
left-hand side also has a matching argument count:
`forall X. g(X) <-> __m_r(X)`. -/
def c4_missed : Smt :=
  .forallQ [{ name := "X:node", sortName := "node" }]
    (.iffS (.appS "g" [.varS 0]) (.appS "__m_r" [.varS 0]))

/-- A definition with the tagged head on the left-hand side:
`forall X. __m_r(X) <-> g(X)`. -/
def c4_found : Smt :=
  .forallQ [{ name := "X:node", sortName := "node" }]
    (.iffS (.appS "__m_r" [.varS 0]) (.appS "g" [.varS 0]))

/-- Sample not-actually-modified symbol: a binary relation with a
module-path name. -/
def c5_sym : IvySymbol := { name := "m.rel", sort := .fn [nodeSort, nodeSort] .bool }

/-- Expression with an application callee under a next-state marker:
`new(f(x))`. -/
def c6_expr : PyvExpr := .unary "NEW" (.app "f" [.idE "x"])

/-- Expression for the C6 witness: `new(g) <-> h`. -/
def c6_expr2 : PyvExpr := .binary "IFF" (.unary "NEW" (.idE "g")) (.idE "h")

/-- Mutable-symbol set for the C6 witness. -/
def c6_globals : List String := ["g", "h"]

/-- Sample second-order existential. -/
def c7_symA : IvySymbol := { name := "__m_p", sort := .fn [nodeSort] .bool }

/-- Second sample second-order existential. -/
def c7_symB : IvySymbol := { name := "__m_q", sort := .fn [nodeSort] .bool }

/-! ## The final equivalence check of `simplify_via_smt` -/

/-- Outcome of a z3 satisfiability check. -/
inductive Z3Result where
  | sat
  | unsat
  | unknown
deriving DecidableEq

/-- Value of the Python expression assigned to `res` in `simplify_via_smt`:
the source stores the *bound method* `s.check` itself (it never calls it),
so `res` is either that method object or — had the call been written — a
solver verdict. -/
inductive PyCheckValue where
  | boundMethod
  | callResult (r : Z3Result)
deriving DecidableEq

/-- Embeds the tail of `Translation.simplify_via_smt` (lines 636-639):

    s = z3.Solver()
    s.add(z3.Not(orig_fmla == fmla))
    res = s.check
    assert res != z3.unsat, ...

`res = s.check` stores the method without calling it, so the assertion
compares a method object against `z3.unsat`; the function returns `true`
exactly when the assertion passes.  The parameter is the verdict the solver
would have produced for the negated equivalence, which the source never
obtains. -/
def equivalence_check_passes (_verdict : Z3Result) : Bool :=
  let res : PyCheckValue := PyCheckValue.boundMethod
  res != PyCheckValue.callResult Z3Result.unsat

/-- Modelled from the spec (§4.4 / §7): after the fixpoint the solver must
prove the pre- and post-simplification formulas equivalent — `UNSAT` on the
negated equivalence — and any other verdict is the fatal
`SimplificationUnsoundError`, so the run continues only on `unsat`. -/
def spec_equivalence_check_passes (verdict : Z3Result) : Bool :=
  verdict == Z3Result.unsat

/-! ## Theorems -/

/-- Soundness of `IvySort.beq`: the test only identifies equal sorts. -/
theorem IvySort.beq_sound :
    ∀ n : Nat,
      (∀ a b : IvySort, sizeOf a < n → IvySort.beq a b = true → a = b) ∧
      (∀ as bs : List IvySort, sizeOf as < n → IvySort.beqList as bs = true → as = bs) := by
  intro n
  induction n with
  | zero =>
    constructor
    · intro a b h; exact absurd h (Nat.not_lt_zero _)
    · intro as bs h; exact absurd h (Nat.not_lt_zero _)
  | succ n ih =>
    constructor
    · intro a b hsz hbeq
      cases a <;> cases b
      case fn.fn d1 r1 d2 r2 =>
        simp only [IvySort.beq, Bool.and_eq_true] at hbeq
        have hsz' : sizeOf d1 < n ∧ sizeOf r1 < n := by
          simp only [IvySort.fn.sizeOf_spec] at hsz; omega
        have h1 := ih.2 d1 d2 hsz'.1 hbeq.1
        have h2 := ih.1 r1 r2 hsz'.2 hbeq.2
        simp [h1, h2]
      all_goals simp_all [IvySort.beq]
    · intro as bs hsz hbeq
      cases as <;> cases bs
      case cons.cons a as b bs =>
        simp only [IvySort.beqList, Bool.and_eq_true] at hbeq
        have hsz' : sizeOf a < n ∧ sizeOf as < n := by
          simp only [List.cons.sizeOf_spec] at hsz; omega
        have h1 := ih.1 a b hsz'.1 hbeq.1
        have h2 := ih.2 as bs hsz'.2 hbeq.2
        simp [h1, h2]
      all_goals simp_all [IvySort.beqList]

/-- Reflexivity of `IvySort.beq`. -/
theorem IvySort.beq_refl :
    ∀ n : Nat,
      (∀ a : IvySort, sizeOf a < n → IvySort.beq a a = true) ∧
      (∀ as : List IvySort, sizeOf as < n → IvySort.beqList as as = true) := by
  intro n
  induction n with
  | zero =>
    constructor
    · intro a h; exact absurd h (Nat.not_lt_zero _)
    · intro as h; exact absurd h (Nat.not_lt_zero _)
  | succ n ih =>
    constructor
    · intro a hsz
      cases a
      case fn d r =>
        have hsz' : sizeOf d < n ∧ sizeOf r < n := by
          simp only [IvySort.fn.sizeOf_spec] at hsz; omega
        simp [IvySort.beq, ih.2 d hsz'.1, ih.1 r hsz'.2]
      all_goals simp [IvySort.beq]
    · intro as hsz
      cases as
      case cons a as =>
        have hsz' : sizeOf a < n ∧ sizeOf as < n := by
          simp only [List.cons.sizeOf_spec] at hsz; omega
        simp [IvySort.beqList, ih.1 a hsz'.1, ih.2 as hsz'.2]
      all_goals simp [IvySort.beqList]

/-- Soundness of `IvySymbol.beq`. -/
theorem ivySymbol_beq_sound {a b : IvySymbol} (h : IvySymbol.beq a b = true) : a = b := by
  unfold IvySymbol.beq at h
  simp only [Bool.and_eq_true, beq_iff_eq] at h
  have hs := (IvySort.beq_sound (sizeOf a.sort + 1)).1 a.sort b.sort (Nat.lt_succ_self _) h.2
  cases a; cases b
  simp_all

/-- C1: the source's equivalence assertion (`res = s.check;
assert res != z3.unsat`) passes for every solver verdict — including `sat`,
where the solver has disproven equivalence — because the solver is never
invoked and a bound method never equals `z3.unsat`; the spec requires the
run to continue only on `unsat`. -/
theorem c1_equivalence_check_never_fires :
    (∀ v : Z3Result, equivalence_check_passes v = true) ∧
      spec_equivalence_check_passes Z3Result.sat = false := by
  constructor
  · intro v; rfl
  · rfl

/-- C9 counterexample: the Boolean sort (a zero-arity relation symbol's
sort) is classified `individual` by `sort_type` although its range is
Boolean, contradicting the claim that `individual` holds exactly when the
domain is empty and the range is non-Boolean. -/
theorem c9_counterexample :
    sort_type IvySort.bool = "individual" ∧
      ¬(sortDom IvySort.bool = [] ∧ is_boolean_sort (sortRng IvySort.bool) = false) := by
  constructor
  · rfl
  · intro h; exact absurd h.2 (by decide)

/-- C9 (amended): `sort_type` returns `relation` exactly on function sorts
with Boolean range, `function` exactly on function sorts with non-Boolean
range, and `individual` exactly on non-function sorts — including the
Boolean sort itself, despite its Boolean range. -/
theorem c9_sort_type_classification :
    ∀ s : IvySort,
      (sort_type s = "relation" ↔ (is_function_sort s && is_boolean_sort (sortRng s)) = true) ∧
      (sort_type s = "function" ↔ (is_function_sort s && !is_boolean_sort (sortRng s)) = true) ∧
      (sort_type s = "individual" ↔ is_function_sort s = false) := by
  intro s
  cases s with
  | fn dom rng =>
    cases rng <;> refine ⟨?_, ?_, ?_⟩ <;>
      simp only [sort_type, sortRng, is_function_sort, is_boolean_sort,
        Bool.true_and, Bool.and_self, Bool.and_false, Bool.not_true, Bool.not_false,
        if_true, if_false, Bool.true_eq_false, Bool.false_eq_true] <;>
      decide
  | _ =>
    refine ⟨?_, ?_, ?_⟩ <;>
      simp only [sort_type, sortRng, is_function_sort, is_boolean_sort,
        Bool.true_and, Bool.and_self, Bool.and_false, Bool.not_true, Bool.not_false,
        if_true, if_false, Bool.true_eq_false, Bool.false_eq_true] <;>
      decide

/-- Replacing a character leaves a list without that character unchanged. -/
theorem replace1_eq_self {t : Char} {l : List Char} (r : List Char)
    (h : t ∉ l) : replace1 t r l = l := by
  induction l with
  | nil => rfl
  | cons c cs ih =>
    simp only [List.mem_cons, not_or] at h
    have hct : ¬(c = t) := fun hc => h.1 hc.symm
    simp only [replace1, if_neg hct, ih h.2]

/-- The replaced character is gone afterwards (when the replacement avoids
it). -/
theorem not_mem_replace1_self {t : Char} {r : List Char} (hr : t ∉ r) :
    ∀ l : List Char, t ∉ replace1 t r l := by
  intro l
  induction l with
  | nil => simp [replace1]
  | cons c cs ih =>
    simp only [replace1]
    by_cases hc : c = t
    · rw [if_pos hc]
      simp only [List.mem_append, not_or]
      exact ⟨hr, ih⟩
    · rw [if_neg hc]
      simp only [List.mem_cons, not_or]
      exact ⟨fun ht => hc (ht ▸ rfl), ih⟩

/-- A character absent from the input and from the replacement is absent
from the output of `replace1`. -/
theorem not_mem_replace1_preserve {c t : Char} {r : List Char}
    (hr : c ∉ r) : ∀ l : List Char, c ∉ l → c ∉ replace1 t r l := by
  intro l
  induction l with
  | nil => intro _; simp [replace1]
  | cons d ds ih =>
    intro hl
    simp only [List.mem_cons, not_or] at hl
    simp only [replace1]
    by_cases hd : d = t
    · rw [if_pos hd]
      simp only [List.mem_append, not_or]
      exact ⟨hr, ih hl.2⟩
    · rw [if_neg hd]
      simp only [List.mem_cons, not_or]
      exact ⟨hl.1, ih hl.2⟩

/-- None of the four replaced characters survives `pyvChars`. -/
theorem pyvChars_no_special (s : List Char) :
    '.' ∉ pyvChars s ∧ '[' ∉ pyvChars s ∧ ']' ∉ pyvChars s ∧ ':' ∉ pyvChars s := by
  unfold pyvChars
  refine ⟨?_, ?_, ?_, ?_⟩
  · exact not_mem_replace1_preserve (by decide) _
      (not_mem_replace1_preserve (by decide) _
        (not_mem_replace1_preserve (by decide) _
          (not_mem_replace1_self (by decide) s)))
  · exact not_mem_replace1_preserve (by decide) _
      (not_mem_replace1_preserve (by decide) _
        (not_mem_replace1_self (by decide) _))
  · exact not_mem_replace1_preserve (by decide) _
      (not_mem_replace1_self (by decide) _)
  · exact not_mem_replace1_self (by decide) _

/-- C10: `to_pyv_name` is idempotent — the replacement strings for `.`,
`[`, `]`, `:` contain none of the replaced characters, so a second pass
changes nothing. -/
theorem c10_to_pyv_name_idempotent :
    ∀ s : String, to_pyv_name (to_pyv_name s) = to_pyv_name s := by
  intro s
  have key : ∀ l : List Char,
      '.' ∉ l → '[' ∉ l → ']' ∉ l → ':' ∉ l → pyvChars l = l := by
    intro l h1 h2 h3 h4
    unfold pyvChars
    rw [replace1_eq_self DOT_REPLACEMENT h1,
      replace1_eq_self BRACE_REPLACEMENT h2,
      replace1_eq_self BRACE_REPLACEMENT h3,
      replace1_eq_self COLON_REPLACEMENT h4]
  have h := pyvChars_no_special s.data
  unfold to_pyv_name
  congr 1
  exact key _ h.1 h.2.1 h.2.2.1 h.2.2.2

/-- Dropping the sort suffix recovers a colon-free binder name. -/
theorem takeWhile_colon_free (l r : List Char)
    (h : l.all (fun c => c != ':') = true) :
    (l ++ ':' :: r).takeWhile (fun c => c != ':') = l := by
  induction l with
  | nil => simp
  | cons c cs ih =>
    simp only [List.all_cons, Bool.and_eq_true] at h
    simp only [List.cons_append, List.takeWhile_cons, h.1, if_true, ih h.2]

/-- Stripping the solver's sort suffix undoes `z3Binder`'s name mangling. -/
theorem strip_z3Binder (v : IvySymbol)
    (h : v.name.data.all (fun c => c != ':') = true) :
    smt_binder_name_to_ivy_name (z3Binder v).name = v.name := by
  unfold smt_binder_name_to_ivy_name z3Binder
  have hdata : (v.name ++ ":" ++ ivySortName v.sort).data
      = v.name.data ++ ':' :: (ivySortName v.sort).data := by
    simp [String.data_append]
  simp only [hdata, takeWhile_colon_free _ _ h]

/-- Consistent binder lists survive the round trip through the solver's
quantifier representation. -/
theorem smt_binders_to_ivy_roundtrip (sorts : String → Option IvySort)
    (vs : List IvySymbol) (h : binders_ok sorts vs = true) :
    smt_binders_to_ivy sorts (vs.map z3Binder) = some vs := by
  induction vs with
  | nil => rfl
  | cons v vs ih =>
    simp only [binders_ok, List.all_cons, Bool.and_eq_true] at h
    have hv := h.1
    unfold binder_ok at hv
    simp only [Bool.and_eq_true] at hv
    obtain ⟨hname, hsort⟩ := hv
    unfold smt_binders_to_ivy at *
    simp only [List.map_cons, List.mapM_cons]
    rcases heq : sorts (ivySortName v.sort) with _ | s
    · rw [heq] at hsort; simp at hsort
    · rw [heq] at hsort
      have hs : s = v.sort :=
        (IvySort.beq_sound (sizeOf s + 1)).1 s v.sort (Nat.lt_succ_self _) hsort
      have hsortName : (z3Binder v).sortName = ivySortName v.sort := rfl
      rw [ih (by simpa [binders_ok] using h.2)]
      simp [hsortName, heq, hs, strip_z3Binder v hname]

/-- A de Bruijn index produced by `deBruijnIndex` points back at the very
symbol that was looked up. -/
theorem deBruijnIndex_get {env : List IvySymbol} {v : IvySymbol} {i : Nat}
    (h : deBruijnIndex env v = some i) : env[i]? = some v := by
  induction env generalizing i with
  | nil => simp [deBruijnIndex] at h
  | cons w ws ih =>
    unfold deBruijnIndex at h
    by_cases hbeq : IvySymbol.beq w v = true
    · rw [if_pos hbeq] at h
      cases h
      simpa using (ivySymbol_beq_sound hbeq)
    · rw [if_neg hbeq, Option.map_eq_some'] at h
      obtain ⟨j, hj, hi⟩ := h
      subst hi
      simpa using ih hj

/-- Round trip through the modelled solver layer, jointly for formulas and
argument lists: a consistent formula the compiler accepts is reproduced
exactly by `smt_to_ivy` under the same binder environment. -/
theorem roundtrip_both (sorts : String → Option IvySort)
    (syms : String → Option IvySymbol) :
    (∀ (env : List IvySymbol) (F : Fmla), ∀ S : Smt,
        fmla_ok sorts syms F = true → formula_to_z3 env F = some S →
        smt_to_ivy sorts syms S env = some F) ∧
    (∀ (env : List IvySymbol) (ts : List Fmla), ∀ ss : List Smt,
        fmla_ok_list sorts syms ts = true → formula_to_z3_list env ts = some ss →
        smt_to_ivy_list sorts syms ss env = some ts) := by
  refine formula_to_z3.mutual_induct
    (fun env F => ∀ S, fmla_ok sorts syms F = true → formula_to_z3 env F = some S →
      smt_to_ivy sorts syms S env = some F)
    (fun env ts => ∀ ss, fmla_ok_list sorts syms ts = true →
      formula_to_z3_list env ts = some ss → smt_to_ivy_list sorts syms ss env = some ts)
    ?_ ?_ ?_ ?_ ?_ ?_ ?_ ?_ ?_ ?_ ?_ ?_ ?_ ?_ ?_ ?_ ?_
  · intro env vs body ih S hok heq
    simp only [fmla_ok, Bool.and_eq_true] at hok
    simp only [formula_to_z3, Option.map_eq_some'] at heq
    obtain ⟨b, hb, hS⟩ := heq
    subst hS
    simp only [smt_to_ivy, smt_binders_to_ivy_roundtrip sorts vs hok.1, Option.some_bind]
    rw [ih b hok.2 hb]
    rfl
  · intro env vs body ih S hok heq
    simp only [fmla_ok, Bool.and_eq_true] at hok
    simp only [formula_to_z3, Option.map_eq_some'] at heq
    obtain ⟨b, hb, hS⟩ := heq
    subst hS
    simp only [smt_to_ivy, smt_binders_to_ivy_roundtrip sorts vs hok.1, Option.some_bind]
    rw [ih b hok.2 hb]
    rfl
  · intro env c a b ihc iha ihb S hok heq
    simp only [fmla_ok, Bool.and_eq_true] at hok
    simp only [formula_to_z3, Option.bind_eq_some, Option.map_eq_some'] at heq
    obtain ⟨x, hx, y, hy, z, hz, hS⟩ := heq
    subst hS
    simp only [smt_to_ivy, ihc x hok.1.1 hx, iha y hok.1.2 hy, ihb z hok.2 hz,
      Option.some_bind, Option.map_some']
  · intro env ts hts S hok heq
    simp only [formula_to_z3] at heq
    rw [if_pos hts] at heq
    cases heq
    have : ts = [] := by simpa using hts
    subst this
    rfl
  · intro env ts hts ih S hok heq
    simp only [formula_to_z3] at heq
    rw [if_neg hts, Option.map_eq_some'] at heq
    obtain ⟨ss, hss, hS⟩ := heq
    subst hS
    simp only [smt_to_ivy]
    rw [ih ss (by simpa [fmla_ok] using hok) hss]
    rfl
  · intro env ts hts S hok heq
    simp only [formula_to_z3] at heq
    rw [if_pos hts] at heq
    cases heq
    have : ts = [] := by simpa using hts
    subst this
    rfl
  · intro env ts hts ih S hok heq
    simp only [formula_to_z3] at heq
    rw [if_neg hts, Option.map_eq_some'] at heq
    obtain ⟨ss, hss, hS⟩ := heq
    subst hS
    simp only [smt_to_ivy]
    rw [ih ss (by simpa [fmla_ok] using hok) hss]
    rfl
  · intro env a b iha ihb S hok heq
    simp only [fmla_ok, Bool.and_eq_true] at hok
    simp only [formula_to_z3, Option.bind_eq_some, Option.map_eq_some'] at heq
    obtain ⟨x, hx, y, hy, hS⟩ := heq
    subst hS
    simp only [smt_to_ivy, iha x hok.1 hx, ihb y hok.2 hy, Option.some_bind,
      Option.map_some']
  · intro env a b iha ihb S hok heq
    simp only [fmla_ok, Bool.and_eq_true] at hok
    simp only [formula_to_z3, Option.bind_eq_some, Option.map_eq_some'] at heq
    obtain ⟨x, hx, y, hy, hS⟩ := heq
    subst hS
    simp only [smt_to_ivy, iha x hok.1 hx, ihb y hok.2 hy, Option.some_bind,
      Option.map_some']
  · intro env a b iha ihb S hok heq
    simp only [fmla_ok, Bool.and_eq_true] at hok
    simp only [formula_to_z3, Option.bind_eq_some, Option.map_eq_some'] at heq
    obtain ⟨x, hx, y, hy, hS⟩ := heq
    subst hS
    simp only [smt_to_ivy, iha x hok.1 hx, ihb y hok.2 hy, Option.some_bind,
      Option.map_some']
  · intro env a ih S hok heq
    simp only [formula_to_z3, Option.map_eq_some'] at heq
    obtain ⟨x, hx, hS⟩ := heq
    subst hS
    simp only [smt_to_ivy]
    rw [ih x (by simpa [fmla_ok] using hok) hx]
    rfl
  · intro env f args hargs S hok heq
    simp only [formula_to_z3] at heq
    rw [if_pos hargs] at heq
    cases heq
  · intro env f args hargs ih S hok heq
    simp only [fmla_ok, Bool.and_eq_true] at hok
    simp only [formula_to_z3] at heq
    rw [if_neg hargs, Option.map_eq_some'] at heq
    obtain ⟨ss, hss, hS⟩ := heq
    subst hS
    obtain ⟨a, as, rfl⟩ : ∃ a as, args = a :: as := by
      cases args with
      | nil => simp at hargs
      | cons a as => exact ⟨a, as, rfl⟩
    obtain ⟨x, hx, xs, hxs, hss'⟩ : ∃ x, formula_to_z3 env a = some x ∧
        ∃ xs, formula_to_z3_list env as = some xs ∧ x :: xs = ss := by
      simpa only [formula_to_z3_list, Option.bind_eq_some, Option.map_eq_some']
        using hss
    subst hss'
    have hsym := hok.1.2
    unfold sym_ok at hsym
    rcases hsyf : syms f.name with _ | sy
    · rw [hsyf] at hsym; simp at hsym
    · rw [hsyf] at hsym
      have hsort : sy.sort = f.sort :=
        (IvySort.beq_sound (sizeOf sy.sort + 1)).1 sy.sort f.sort (Nat.lt_succ_self _) hsym
      simp only [smt_to_ivy, hsyf, Option.some_bind]
      rw [ih (x :: xs) hok.2 (by simp [formula_to_z3_list, hx, hxs])]
      simp only [Option.map_some', Option.some.injEq]
      have : ({ name := f.name, sort := sy.sort } : IvySymbol) = f := by
        rw [hsort]
      rw [this]
  · intro env sym S hok heq
    cases heq
    unfold fmla_ok at hok
    unfold sym_ok at hok
    rcases hsyf : syms sym.name with _ | sy
    · rw [hsyf] at hok; simp at hok
    · rw [hsyf] at hok
      have hsort : sy.sort = sym.sort :=
        (IvySort.beq_sound (sizeOf sy.sort + 1)).1 sy.sort sym.sort (Nat.lt_succ_self _) hok
      simp only [smt_to_ivy, hsyf, Option.map_some', Option.some.injEq]
      rw [hsort]
  · intro env v S hok heq
    simp only [formula_to_z3, Option.map_eq_some'] at heq
    obtain ⟨i, hi, hS⟩ := heq
    subst hS
    simp only [smt_to_ivy, deBruijnIndex_get hi, Option.map_some']
  · intro env ss hok heq
    cases heq
    rfl
  · intro env t ts iht ihts ss hok heq
    simp only [fmla_ok_list, Bool.and_eq_true] at hok
    simp only [formula_to_z3_list, Option.bind_eq_some, Option.map_eq_some'] at heq
    obtain ⟨x, hx, xs, hxs, hS⟩ := heq
    subst hS
    simp only [smt_to_ivy_list, iht x hok.1 hx, ihts xs hok.2 hxs, Option.some_bind,
      Option.map_some']

/-- C2: the round-trip law — a consistent two-state action formula compiled
to the solver representation and read back through `smt_to_ivy` is
reproduced structurally, so the `RoundTripError` assertion in
`translate_action` can only signal a translator defect, never a legitimate
input. -/
theorem c2_round_trip (sorts : String → Option IvySort)
    (syms : String → Option IvySymbol) (env : List IvySymbol) (F : Fmla) (S : Smt)
    (hok : fmla_ok sorts syms F = true) (heq : formula_to_z3 env F = some S) :
    smt_to_ivy sorts syms S env = some F :=
  (roundtrip_both sorts syms).1 env F S hok heq

/-- C2 witness: the sample formula `forall X. new_r(X) <-> r(X)` satisfies
the table-consistency hypotheses and round-trips to itself. -/
theorem c2_round_trip_witness :
    fmla_ok c2_sorts c2_syms c2_sample = true ∧
      smt_to_ivy c2_sorts c2_syms ((formula_to_z3 [] c2_sample).getD Smt.tt) []
        = some c2_sample :=
  ⟨rfl, c2_round_trip c2_sorts c2_syms [] c2_sample _ rfl rfl⟩

/-- Membership form of `List.contains` on strings. -/
theorem names_contains_iff (l : List String) (x : String) :
    l.contains x = true ↔ x ∈ l := by
  induction l with
  | nil => simp
  | cons y ys ih =>
    simp only [List.contains_cons, Bool.or_eq_true, beq_iff_eq, List.mem_cons, ih]

/-- Set equality of name lists is preserved by mapping a function over
both. -/
theorem setEqNames_map (f : String → String) {a b : List String}
    (h : setEqNames a b = true) : setEqNames (a.map f) (b.map f) = true := by
  simp only [setEqNames, Bool.and_eq_true, List.all_eq_true, names_contains_iff] at h ⊢
  obtain ⟨hab, hba⟩ := h
  constructor
  · intro y hy
    rw [List.mem_map] at hy
    obtain ⟨x, hx, rfl⟩ := hy
    exact List.mem_map_of_mem f (hab x hx)
  · intro y hy
    rw [List.mem_map] at hy
    obtain ⟨x, hx, rfl⟩ := hy
    exact List.mem_map_of_mem f (hba x hx)

/-- C3: whenever the modifies sanity check of `translate_action` passes
(it compares the externally-supplied modified names with the untagged
post-state names of the simplified formula, as raw-name sets), the
name-translated sets agree as well; contrapositively, any disagreement of
the translated sets trips the fatal assertion. -/
theorem c3_modifies_translated_agreement :
    ∀ (orig : List String) (fsyms : List IvySymbol),
      modifies_check orig fsyms = true →
      setEqNames (orig.map to_pyv_name)
        ((actually_modified_names fsyms).map to_pyv_name) = true := by
  intro orig fsyms h
  exact setEqNames_map to_pyv_name h

/-- C3 witness: a concrete action whose supplied modified set `{a.b}`
matches the post-state symbols of its simplified formula. -/
theorem c3_modifies_witness :
    modifies_check c3_orig c3_fsyms = true ∧
      setEqNames (c3_orig.map to_pyv_name)
        ((actually_modified_names c3_fsyms).map to_pyv_name) = true :=
  ⟨rfl, c3_modifies_translated_agreement c3_orig c3_fsyms rfl⟩

/-- Post-state tagging is visible to the tag test. -/
theorem itr_is_new_itr_new (sym : IvySymbol) : itr_is_new (itr_new sym) = true := by
  unfold itr_is_new itr_new
  simp only [String.data_append]
  rw [List.isPrefixOf_iff_prefix]
  exact List.prefix_append _ _

/-- Untagging undoes post-state tagging. -/
theorem itr_new_of_itr_new (sym : IvySymbol) : itr_new_of (itr_new sym) = sym := by
  unfold itr_new_of itr_new new_of_name
  have hdrop : ("new_" ++ sym.name).data.drop 4 = sym.name.data := by
    rw [String.data_append]
    have h4 : (4 : Nat) = "new_".data.length := rfl
    rw [h4]
    exact List.drop_left _ _
  simp only [hdrop]

/-- Translating a list of plain variables yields their translated-name
identifiers. -/
theorem translate_vars_list (b : Bool) (uvars : List IvySymbol) :
    translate_logic_fmla_list b (uvars.map .varF)
      = uvars.map fun v => .idE (to_pyv_name v.name) := by
  induction uvars with
  | nil => rfl
  | cons v vs ih =>
    simp [translate_logic_fmla_list, translate_logic_fmla, ih]

/-- C5: for every pre-state symbol in the not-actually-modified set, the
synthesized unchanged clause has exactly the claimed shape — `next(x) = x`
for a zero-arity symbol, `forall fresh args. next(sym(args)) = sym(args)`
otherwise — and `translate_action` conjoins all these clauses onto the
emitted action body. -/
theorem c5_unchanged_clause_shape :
    ∀ (sym : IvySymbol), itr_is_new sym = false →
      ∀ (body : PyvExpr) (l : List IvySymbol), sym ∈ l →
        pyv_unchanged_symbol sym = unchanged_expected sym ∧
        conjoin_unchanged body l =
          .nary "AND" [body, .nary "AND" (l.map pyv_unchanged_symbol)] ∧
        unchanged_expected sym ∈ l.map pyv_unchanged_symbol := by
  intro sym hnotnew body l hmem
  have hshape : pyv_unchanged_symbol sym = unchanged_expected sym := by
    unfold pyv_unchanged_symbol unchanged_expected
    rcases hdom : sortDom sym.sort with _ | ⟨d, ds⟩
    · simp only [hdom, List.length_nil, if_pos rfl]
      simp [translate_logic_fmla, itr_is_new_itr_new, itr_new_of_itr_new, hnotnew]
    · simp only [hdom]
      rw [if_neg (by simp)]
      simp [translate_logic_fmla, itr_is_new_itr_new, itr_new_of_itr_new, hnotnew,
        translate_vars_list]
  refine ⟨hshape, ?_, ?_⟩
  · unfold conjoin_unchanged
    rw [if_pos (List.length_pos.mpr (List.ne_nil_of_mem hmem))]
  · rw [← hshape]
    exact List.mem_map_of_mem _ hmem

/-- C5 witness: the binary relation `m.rel` in a singleton
not-actually-modified set. -/
theorem c5_unchanged_clause_witness :
    itr_is_new c5_sym = false ∧
      (pyv_unchanged_symbol c5_sym = unchanged_expected c5_sym ∧
        conjoin_unchanged (PyvExpr.boolE true) [c5_sym] =
          .nary "AND"
            [PyvExpr.boolE true, .nary "AND" ([c5_sym].map pyv_unchanged_symbol)] ∧
        unchanged_expected c5_sym ∈ [c5_sym].map pyv_unchanged_symbol) :=
  ⟨rfl, c5_unchanged_clause_shape c5_sym rfl (PyvExpr.boolE true) [c5_sym]
    (List.mem_singleton.mpr rfl)⟩

/-- C7: the intermediate (second-order witness) declarations and the havoc
clauses are emitted in set-iteration order — two enumerations of the same
symbol set yield different output — while the havoc modifies list is indeed
sorted.  This refutes sortedness of those two emissions. -/
theorem c7_iteration_order_dependence :
    [c7_symA, c7_symB].Perm [c7_symB, c7_symA] ∧
    (add_intermediate_decls [c7_symA, c7_symB]).map (Option.map pyv_decl_name) ≠
      (add_intermediate_decls [c7_symB, c7_symA]).map (Option.map pyv_decl_name) ∧
    (havoc_clauses [c7_symA, c7_symB]).map pyv_expr_names ≠
      (havoc_clauses [c7_symB, c7_symA]).map pyv_expr_names ∧
    havoc_modified [c7_symA, c7_symB] = havoc_modified [c7_symB, c7_symA] :=
  ⟨List.Perm.swap c7_symB c7_symA [], by decide, by decide, by decide⟩

/-- C8: adding an enumerated sort with `k` values emits exactly one sort
declaration, exactly `k` constant declarations, and exactly one
distinctness axiom when `k ≥ 2`, none otherwise. -/
theorem c8_enum_sort_counts :
    ∀ (st : MypyvyProgState) (name : String) (values : List String),
      ∃ st', add_sort st (.enumerated name values) = some st' ∧
        st'.sorts.length = st.sorts.length + 1 ∧
        st'.constants.length = st.constants.length + values.length ∧
        st'.axms.length = st.axms.length + (if 2 ≤ values.length then 1 else 0) := by
  intro st name values
  by_cases hv : 2 ≤ values.length
  · refine ⟨{ sorts := st.sorts ++ [PyvDecl.sortDecl name],
              constants := st.constants ++ values.map
                (fun v =>
                  PyvDecl.constantDecl v (to_pyv_sort (IvySort.enumerated name values)) false),
              axms := st.axms ++ [PyvDecl.axmDecl (some (name ++ "_distinct"))
                (PyvExpr.nary "DISTINCT" (values.map PyvExpr.idE))] }, ?_, ?_, ?_, ?_⟩
    · simp only [add_sort]
      rw [if_pos (by simpa using hv)]
    · simp
    · simp
    · simp [hv]
  · refine ⟨{ sorts := st.sorts ++ [PyvDecl.sortDecl name],
              constants := st.constants ++ values.map
                (fun v =>
                  PyvDecl.constantDecl v (to_pyv_sort (IvySort.enumerated name values)) false),
              axms := st.axms }, ?_, ?_, ?_, ?_⟩
    · simp only [add_sort]
      rw [if_neg (by simpa using hv)]
    · simp
    · simp
    · simp [hv]

/-- C4 counterexample: for `forall X. g(X) <-> __m_r(X)` — whose
*right-hand* side applies a reserved-prefixed relation to exactly the bound
variables — the claim deems the subterm a macro, but the detector examines
only the left-hand side (the first side whose argument count matches the
binder count) and rejects it. -/
theorem c4_counterexample :
    is_skolem_defn z3_defn_finder c4_missed = some false ∧
      claim_is_eliminable c4_missed = true :=
  ⟨rfl, rfl⟩

/-- C4 (amended): when the detector evaluates without error, it accepts
exactly the formulas the macro-finder oracle flags in which the *first*
side of the body (left before right) whose argument count equals the binder
count is an application of a reserved-prefixed relation; the other side is
never examined. -/
theorem c4_detector_matches_first_side :
    ∀ f : Smt, is_skolem_defn z3_defn_finder f ≠ none →
      (is_skolem_defn z3_defn_finder f = some true ↔ amended_is_eliminable f = true) := by
  intro f hcrash
  cases f
  case forallQ bs body =>
    cases body
    case iffS a b =>
      by_cases hor : (defn_head_ok bs.length a || defn_head_ok bs.length b) = true
      · rcases hna : smtNumArgs a with _ | k0
        · exfalso
          apply hcrash
          simp [is_skolem_defn, z3_defn_finder, hor, smtChildren, hna]
        · by_cases hk0 : k0 = bs.length
          · rcases hdn : smtDeclName a with _ | nm
            · exfalso
              apply hcrash
              simp [is_skolem_defn, z3_defn_finder, hor, smtChildren, hna, hk0, hdn]
            · have hdet : is_skolem_defn z3_defn_finder (.forallQ bs (.iffS a b))
                  = some (py_startswith nm IVY_TEMPORARY_INDICATOR) := by
                simp [is_skolem_defn, z3_defn_finder, hor, smtChildren, hna, hk0, hdn]
              have hamd : amended_is_eliminable (.forallQ bs (.iffS a b))
                  = py_startswith nm IVY_TEMPORARY_INDICATOR := by
                simp [amended_is_eliminable, z3_defn_finder, hor, hna, hk0,
                  head_is_tagged, hdn]
              rw [hdet, hamd]
              simp
          · rcases hnb : smtNumArgs b with _ | k1
            · exfalso
              apply hcrash
              simp [is_skolem_defn, z3_defn_finder, hor, smtChildren, hna, hk0, hnb]
            · by_cases hk1 : k1 = bs.length
              · rcases hdnb : smtDeclName b with _ | nm
                · exfalso
                  apply hcrash
                  simp [is_skolem_defn, z3_defn_finder, hor, smtChildren, hna, hk0,
                    hnb, hk1, hdnb]
                · have hdet : is_skolem_defn z3_defn_finder (.forallQ bs (.iffS a b))
                      = some (py_startswith nm IVY_TEMPORARY_INDICATOR) := by
                    simp [is_skolem_defn, z3_defn_finder, hor, smtChildren, hna, hk0,
                      hnb, hk1, hdnb]
                  have hamd : amended_is_eliminable (.forallQ bs (.iffS a b))
                      = py_startswith nm IVY_TEMPORARY_INDICATOR := by
                    simp [amended_is_eliminable, z3_defn_finder, hor, hna, hk0, hnb,
                      hk1, head_is_tagged, hdnb]
                  rw [hdet, hamd]
                  simp
              · have hdet : is_skolem_defn z3_defn_finder (.forallQ bs (.iffS a b))
                    = some false := by
                  simp [is_skolem_defn, z3_defn_finder, hor, smtChildren, hna, hk0,
                    hnb, hk1]
                have hamd : amended_is_eliminable (.forallQ bs (.iffS a b)) = false := by
                  simp [amended_is_eliminable, z3_defn_finder, hor, hna, hk0, hnb, hk1]
                rw [hdet, hamd]
                simp
      · have hdet : is_skolem_defn z3_defn_finder (.forallQ bs (.iffS a b))
            = some false := by
          simp [is_skolem_defn, z3_defn_finder, hor]
        have hamd : amended_is_eliminable (.forallQ bs (.iffS a b)) = false := by
          simp [amended_is_eliminable, z3_defn_finder, hor]
        rw [hdet, hamd]
        simp
    case eqS a b =>
      by_cases hor : (defn_head_ok bs.length a || defn_head_ok bs.length b) = true
      · rcases hna : smtNumArgs a with _ | k0
        · exfalso
          apply hcrash
          simp [is_skolem_defn, z3_defn_finder, hor, smtChildren, hna]
        · by_cases hk0 : k0 = bs.length
          · rcases hdn : smtDeclName a with _ | nm
            · exfalso
              apply hcrash
              simp [is_skolem_defn, z3_defn_finder, hor, smtChildren, hna, hk0, hdn]
            · have hdet : is_skolem_defn z3_defn_finder (.forallQ bs (.eqS a b))
                  = some (py_startswith nm IVY_TEMPORARY_INDICATOR) := by
                simp [is_skolem_defn, z3_defn_finder, hor, smtChildren, hna, hk0, hdn]
              have hamd : amended_is_eliminable (.forallQ bs (.eqS a b))
                  = py_startswith nm IVY_TEMPORARY_INDICATOR := by
                simp [amended_is_eliminable, z3_defn_finder, hor, hna, hk0,
                  head_is_tagged, hdn]
              rw [hdet, hamd]
              simp
          · rcases hnb : smtNumArgs b with _ | k1
            · exfalso
              apply hcrash
              simp [is_skolem_defn, z3_defn_finder, hor, smtChildren, hna, hk0, hnb]
            · by_cases hk1 : k1 = bs.length
              · rcases hdnb : smtDeclName b with _ | nm
                · exfalso
                  apply hcrash
                  simp [is_skolem_defn, z3_defn_finder, hor, smtChildren, hna, hk0,
                    hnb, hk1, hdnb]
                · have hdet : is_skolem_defn z3_defn_finder (.forallQ bs (.eqS a b))
                      = some (py_startswith nm IVY_TEMPORARY_INDICATOR) := by
                    simp [is_skolem_defn, z3_defn_finder, hor, smtChildren, hna, hk0,
                      hnb, hk1, hdnb]
                  have hamd : amended_is_eliminable (.forallQ bs (.eqS a b))
                      = py_startswith nm IVY_TEMPORARY_INDICATOR := by
                    simp [amended_is_eliminable, z3_defn_finder, hor, hna, hk0, hnb,
                      hk1, head_is_tagged, hdnb]
                  rw [hdet, hamd]
                  simp
              · have hdet : is_skolem_defn z3_defn_finder (.forallQ bs (.eqS a b))
                    = some false := by
                  simp [is_skolem_defn, z3_defn_finder, hor, smtChildren, hna, hk0,
                    hnb, hk1]
                have hamd : amended_is_eliminable (.forallQ bs (.eqS a b)) = false := by
                  simp [amended_is_eliminable, z3_defn_finder, hor, hna, hk0, hnb, hk1]
                rw [hdet, hamd]
                simp
      · have hdet : is_skolem_defn z3_defn_finder (.forallQ bs (.eqS a b))
            = some false := by
          simp [is_skolem_defn, z3_defn_finder, hor]
        have hamd : amended_is_eliminable (.forallQ bs (.eqS a b)) = false := by
          simp [amended_is_eliminable, z3_defn_finder, hor]
        rw [hdet, hamd]
        simp
    all_goals simp [is_skolem_defn, z3_defn_finder, amended_is_eliminable]
  all_goals simp [is_skolem_defn, z3_defn_finder, amended_is_eliminable]

/-- C4 witness: the detector accepts `forall X. __m_r(X) <-> g(X)` and so
does the amended characterization. -/
theorem c4_detector_witness :
    is_skolem_defn z3_defn_finder c4_found ≠ none ∧
      (is_skolem_defn z3_defn_finder c4_found = some true ↔
        amended_is_eliminable c4_found = true) :=
  ⟨by decide, c4_detector_matches_first_side c4_found (by decide)⟩

/-- Propositional regrouping used by the two-way union cases. -/
theorem or2_shuffle {g i1 i2 c1 c2 : Prop} :
    ((g ∧ i1) ∨ c1) ∨ ((g ∧ i2) ∨ c2) ↔ (g ∧ (i1 ∨ i2)) ∨ (c1 ∨ c2) := by
  tauto

/-- Propositional regrouping used by the three-way union cases. -/
theorem or3_shuffle {g i1 i2 i3 c1 c2 c3 : Prop} :
    ((g ∧ i1) ∨ c1) ∨ ((g ∧ i2) ∨ c2) ∨ ((g ∧ i3) ∨ c3) ↔
      (g ∧ ((i1 ∨ i2) ∨ i3)) ∨ ((c1 ∨ c2) ∨ c3) := by
  tauto

/-- Joint characterization of `pyv_globals_under_new`: a name is collected
exactly when it occurs under a next-state marker as a mutable-set
identifier or as an application callee (the latter irrespective of the
mutable set). -/
theorem pyv_globals_under_new_characterization (G : List String) :
    (∀ (e : PyvExpr) (under : Bool) (res : List String),
        pyv_globals_under_new G e under = some res →
        ∀ x, x ∈ res ↔
          ((x ∈ G ∧ occurs_id_under_new x e under = true) ∨
            occurs_callee_under_new x e under = true)) ∧
    (∀ (es : List PyvExpr) (under : Bool) (res : List String),
        pyv_globals_under_new_list G es under = some res →
        ∀ x, x ∈ res ↔
          ((x ∈ G ∧ occurs_id_under_new_list x es under = true) ∨
            occurs_callee_under_new_list x es under = true)) := by
  refine pyv_globals_under_new.mutual_induct G
    (fun e under => ∀ res, pyv_globals_under_new G e under = some res →
      ∀ x, x ∈ res ↔ ((x ∈ G ∧ occurs_id_under_new x e under = true) ∨
        occurs_callee_under_new x e under = true))
    (fun es under => ∀ res, pyv_globals_under_new_list G es under = some res →
      ∀ x, x ∈ res ↔ ((x ∈ G ∧ occurs_id_under_new_list x es under = true) ∨
        occurs_callee_under_new_list x es under = true))
    ?_ ?_ ?_ ?_ ?_ ?_ ?_ ?_ ?_ ?_ ?_ ?_ ?_ ?_ ?_ ?_
  · intro b under res heq x
    simp only [pyv_globals_under_new, Option.some.injEq] at heq
    subst heq
    simp [occurs_id_under_new, occurs_callee_under_new]
  · intro n under res heq x
    simp only [pyv_globals_under_new, Option.some.injEq] at heq
    subst heq
    simp [occurs_id_under_new, occurs_callee_under_new]
  · intro arg under ih res heq x
    have heq' : pyv_globals_under_new G arg true = some res := by
      simpa [pyv_globals_under_new] using heq
    simpa [occurs_id_under_new, occurs_callee_under_new] using ih res heq' x
  · intro op arg under hop ih res heq x
    have heq' : pyv_globals_under_new G arg under = some res := by
      simpa [pyv_globals_under_new, hop] using heq
    simpa [occurs_id_under_new, occurs_callee_under_new, hop] using ih res heq' x
  · intro op a b under iha ihb res heq x
    simp only [pyv_globals_under_new, Option.bind_eq_some, Option.map_eq_some'] at heq
    obtain ⟨ra, hra, rb, hrb, hres⟩ := heq
    subst hres
    have HA := iha ra hra x
    have HB := ihb rb hrb x
    simp only [List.mem_append, HA, HB, occurs_id_under_new, occurs_callee_under_new,
      Bool.or_eq_true]
    exact or2_shuffle
  · intro op args under hargs res heq x
    simp only [pyv_globals_under_new] at heq
    rw [if_pos hargs] at heq
    simp at heq
  · intro op args under hargs ih res heq x
    have heq' : pyv_globals_under_new_list G args under = some res := by
      simp only [pyv_globals_under_new] at heq
      rwa [if_neg hargs] at heq
    simpa [occurs_id_under_new, occurs_callee_under_new] using ih res heq' x
  · intro callee args under hargs res heq x
    simp only [pyv_globals_under_new] at heq
    rw [if_pos hargs] at heq
    simp at heq
  · intro callee args under hargs ih res heq x
    simp only [pyv_globals_under_new] at heq
    rw [if_neg hargs, Option.map_eq_some'] at heq
    obtain ⟨r, hr, hres⟩ := heq
    subst hres
    have H := ih r hr x
    cases under with
    | true =>
      simp only [if_pos rfl, List.mem_cons, H, occurs_id_under_new,
        occurs_callee_under_new, Bool.or_eq_true, Bool.and_eq_true, Bool.true_and,
        beq_iff_eq, if_true]
      have hcx : x = callee ↔ callee = x := eq_comm
      tauto
    | false =>
      simp only [if_neg (by simp : ¬(false = true)), H, occurs_id_under_new,
        occurs_callee_under_new, Bool.false_and, Bool.false_or, Bool.or_eq_true]
  · intro quant binders body under ih res heq x
    have heq' : pyv_globals_under_new G body under = some res := by
      simpa [pyv_globals_under_new] using heq
    simpa [occurs_id_under_new, occurs_callee_under_new] using ih res heq' x
  · intro n under hcond res heq x
    simp only [pyv_globals_under_new] at heq
    rw [if_pos hcond] at heq
    simp only [Option.some.injEq] at heq
    subst heq
    have hc : under = true ∧ G.contains n = true := by simpa using hcond
    simp only [List.mem_singleton, occurs_id_under_new, occurs_callee_under_new,
      hc.1, Bool.true_and, beq_iff_eq]
    constructor
    · intro hx
      subst hx
      exact Or.inl ⟨(names_contains_iff G x).mp hc.2, by simp⟩
    · rintro (⟨hxG, hxid⟩ | h)
      · simpa using hxid.symm
      · simp at h
  · intro n under hcond res heq x
    simp only [pyv_globals_under_new] at heq
    rw [if_neg hcond] at heq
    simp only [Option.some.injEq] at heq
    subst heq
    simp only [List.not_mem_nil, false_iff, not_or, occurs_id_under_new,
      occurs_callee_under_new]
    constructor
    · rintro ⟨hxG, hxid⟩
      simp only [Bool.and_eq_true, beq_iff_eq] at hxid
      apply hcond
      simp only [Bool.and_eq_true]
      refine ⟨hxid.1, ?_⟩
      rw [hxid.2]
      exact (names_contains_iff G x).mpr hxG
    · simp
  · intro c a b under ihc iha ihb res heq x
    simp only [pyv_globals_under_new, Option.bind_eq_some, Option.map_eq_some'] at heq
    obtain ⟨rc, hrc, ra, hra, rb, hrb, hres⟩ := heq
    subst hres
    have HC := ihc rc hrc x
    have HA := iha ra hra x
    have HB := ihb rb hrb x
    simp only [List.mem_append, List.append_assoc, HC, HA, HB, occurs_id_under_new,
      occurs_callee_under_new, Bool.or_eq_true]
    exact or3_shuffle
  · intro v val body under ihv ihb res heq x
    simp only [pyv_globals_under_new, Option.bind_eq_some, Option.map_eq_some'] at heq
    obtain ⟨rv, hrv, rb, hrb, hres⟩ := heq
    subst hres
    have HV := ihv rv hrv x
    have HB := ihb rb hrb x
    simp only [List.mem_append, HV, HB, occurs_id_under_new, occurs_callee_under_new,
      Bool.or_eq_true]
    exact or2_shuffle
  · intro under res heq x
    simp only [pyv_globals_under_new_list, Option.some.injEq] at heq
    subst heq
    simp [occurs_id_under_new_list, occurs_callee_under_new_list]
  · intro e es under ihe ihes res heq x
    simp only [pyv_globals_under_new_list, Option.bind_eq_some, Option.map_eq_some'] at heq
    obtain ⟨re, hre, rs, hrs, hres⟩ := heq
    subst hres
    have HE := ihe re hre x
    have HS := ihes rs hrs x
    simp only [List.mem_append, HE, HS, occurs_id_under_new_list,
      occurs_callee_under_new_list, Bool.or_eq_true]
    exact or2_shuffle

/-- C6 counterexample: with an empty mutable-symbol set, the formula
`new(f(x))` still yields `{f}` — the application-callee branch adds the
callee without a membership test, so the result is not a subset of the
mutable set. -/
theorem c6_counterexample :
    pyv_globals_under_new [] c6_expr false = some ["f"] ∧
      "f" ∉ ([] : List String) :=
  ⟨rfl, by simp⟩

/-- C6 (amended): every name returned by `pyv_globals_under_new` occurs
syntactically underneath a next-state marker — as an identifier belonging
to the mutable set, or as an application callee regardless of the mutable
set — and conversely. -/
theorem c6_globals_under_next_characterization :
    ∀ (G : List String) (e : PyvExpr) (under : Bool) (res : List String),
      pyv_globals_under_new G e under = some res →
      ∀ x, x ∈ res ↔
        ((x ∈ G ∧ occurs_id_under_new x e under = true) ∨
          occurs_callee_under_new x e under = true) :=
  fun G => (pyv_globals_under_new_characterization G).1

/-- C6 witness: on `new(g) <-> h` with mutable set `{g, h}`, the collected
set is `{g}`, and the characterization instantiates at `g`. -/
theorem c6_globals_under_next_witness :
    pyv_globals_under_new c6_globals c6_expr2 false = some ["g"] ∧
      ("g" ∈ ["g"] ↔
        (("g" ∈ c6_globals ∧ occurs_id_under_new "g" c6_expr2 false = true) ∨
          occurs_callee_under_new "g" c6_expr2 false = true)) :=
  ⟨rfl, c6_globals_under_next_characterization c6_globals c6_expr2 false ["g"] rfl "g"⟩
